import Mathlib

/-!
Shallow embedding of `src/parser/src/main.rs` (crate `jsonparser`): a
hand-written lexer (`Lex`), a recursive-descent parser (`Par`) and a
fixed-capacity arena (`Allocator`).

Modelling conventions:
* Rust `f64` numeric payloads are modelled by `Num64`, the exact decimal
  value `mant / 10 ^ scale` of the numeric text accepted by `Lex::num`
  (digits with at most one decimal point, no sign, no exponent), together
  with the interpretation `Num64.toRat`.  No claim depends on `f64`
  rounding, only on which numeric text was lexed.
* Rust panics (`assert!` in `Allocator::make` / `Allocator::alloc`) are
  modelled as `none` / a distinguished error string, since a panic never
  returns a value to the caller.
* `HashMap<String, Id>` is modelled as an association list with
  insert-overwrites-existing-key semantics (`insertKey`); no settled claim
  depends on the map's iteration order.
* `char::is_alphanumeric` is modelled on the ASCII range (`Char.isAlphanum`);
  every input a claim mentions is ASCII.
* The `Peekable<Chars>` character source is the remaining `List Char`.
* The mutually recursive `go_parse` and its two inner `loop`s are modelled
  with a fuel parameter; `Par.parse` hands the loop `4 * input length + 16`
  fuel, which dominates the actual number of recursive steps (every step
  either consumes a token, errors, or enters a child whose opening token
  was already consumed).
-/

namespace JP

/-- Decidable equality for `Except`, so results of the modelled fallible
operations can be compared by `decide`. -/
instance {ε α : Type} [DecidableEq ε] [DecidableEq α] : DecidableEq (Except ε α) := fun a b =>
  match a, b with
  | .error e, .error f =>
    if h : e = f then .isTrue (by rw [h]) else .isFalse fun hh => h (by cases hh; rfl)
  | .error _, .ok _ => .isFalse fun hh => Except.noConfusion hh
  | .ok _, .error _ => .isFalse fun hh => Except.noConfusion hh
  | .ok x, .ok y =>
    if h : x = y then .isTrue (by rw [h]) else .isFalse fun hh => h (by cases hh; rfl)

/-- The exact decimal value `mant / 10 ^ scale`, modelling the `f64` payload
of a numeric token. -/
structure Num64 where
  mant : Nat
  scale : Nat
deriving DecidableEq, Repr

/-- Interpretation of the modelled numeric payload as a rational. -/
def Num64.toRat (n : Num64) : ℚ := mkRat n.mant (10 ^ n.scale)

/-- `enum Token` from the source (`False`/`True`/`Null` are spelled
`tfalse`/`ttrue`/`tnull`). -/
inductive Token where
  | str (s : String)
  | num (n : Num64)
  | tfalse
  | ttrue
  | tnull
  | lbrace
  | rbrace
  | lbracket
  | rbracket
  | comma
  | colon
  | eof
  | illegalIdent (s : String)
deriving DecidableEq, Repr

/-- `enum JsonValue`; composite variants hold arena handles (`Id<JsonValue>`
is an opaque `usize`, modelled as `Nat`). `Object`'s `HashMap` is modelled
as an association list. -/
inductive JsonValue where
  | string (s : String)
  | number (n : Num64)
  | bool (b : Bool)
  | object (m : List (String × Nat))
  | list (l : List Nat)
  | null
deriving DecidableEq, Repr

/-- `struct Allocator<T> { curr, size, vec }`. -/
structure Allocator (T : Type) where
  curr : Nat
  size : Nat
  vec : List T
deriving DecidableEq, Repr

/-- `Allocator::make`: `assert!(size > 0)` (panic modelled as `none`), then
the minted capacity is `size - 1`. -/
def Allocator.make {T : Type} (size : Nat) : Option (Allocator T) :=
  if 0 < size then some ⟨0, size - 1, []⟩ else none

/-- `Allocator::alloc`: the handle is the pre-insertion count `curr`;
`assert!(id < self.size)` (panic modelled as `none`). -/
def Allocator.alloc {T : Type} (a : Allocator T) (el : T) : Option (Nat × Allocator T) :=
  if a.curr < a.size then some (a.curr, ⟨a.curr + 1, a.size, a.vec ++ [el]⟩) else none

/-- `Allocator::fetch`: index into `vec` (an out-of-bounds panic is `none`). -/
def Allocator.fetch {T : Type} (a : Allocator T) (id : Nat) : Option T :=
  a.vec[id]?

/-- Quantification vehicle for C8: perform a sequence of `alloc` calls in
order, collecting the minted handles. -/
def Allocator.allocAll {T : Type} (a : Allocator T) : List T → Option (List Nat × Allocator T)
  | [] => some ([], a)
  | v :: vs =>
    match a.alloc v with
    | none => none
    | some (id, a1) =>
      match a1.allocAll vs with
      | none => none
      | some (ids, a2) => some (id :: ids, a2)

/-- A single-quote string, built by code point to keep the source text free
of bare quote characters. -/
def sq : String := String.mk [Char.ofNat 39]

/-- Numeric value of a digit run (`s.parse` on digits). -/
def digitsToNat (s : List Char) : Nat :=
  s.foldl (fun acc c => acc * 10 + (c.toNat - 48)) 0

/-- The exact value of a numeric text `⟨digits⟩` or `⟨digits⟩.⟨digits⟩`. -/
def numValue (s : List Char) : Num64 :=
  let intPart := s.takeWhile (fun c => c ≠ '.')
  let frac := (s.dropWhile (fun c => c ≠ '.')).drop 1
  ⟨digitsToNat intPart * 10 ^ frac.length + digitsToNat frac, frac.length⟩

/-- `i64::MAX`; `"….parse::<i64>()"` on an (unsigned) digit run succeeds
exactly when the value fits. -/
def i64Max : Nat := 9223372036854775807

/-- The digit/decimal-point run consumed by `Lex::num`, tracking whether a
decimal point was already seen (a second point ends the run). Returns the
consumed run and the remaining characters. -/
def numChars : List Char → Bool → List Char × List Char
  | [], _ => ([], [])
  | c :: cs, isFloat =>
    if c.isDigit then
      let (t, r) := numChars cs isFloat
      (c :: t, r)
    else if c = '.' && !isFloat then
      let (t, r) := numChars cs true
      (c :: t, r)
    else ([], c :: cs)

namespace Lex

/-- `Lex::str`: the characters after the opening quote up to (and consuming)
the next quote; with no closing quote, all remaining characters are taken. -/
def str (cs : List Char) : Token × List Char :=
  (Token.str (String.mk (cs.takeWhile (fun c => c ≠ '"'))),
   (cs.dropWhile (fun c => c ≠ '"')).drop 1)

/-- `Lex::num`: parse the numeric run. Without a decimal point the text is
parsed as `i64` (overflow yields `IllegalIdent`); with one, as `f64`, which
always succeeds on a digits-and-one-point run. -/
def num (cs : List Char) : Token × List Char :=
  let (s, r) := numChars cs false
  if s.contains '.' then (Token.num (numValue s), r)
  else if digitsToNat s ≤ i64Max then (Token.num (numValue s), r)
  else (Token.illegalIdent (String.mk s), r)

/-- `Lex::ident`: the alphanumeric run, matched against the keywords.  A
non-alphanumeric first character consumes nothing and yields
`IllegalIdent ""`. -/
def ident (cs : List Char) : Token × List Char :=
  let s := cs.takeWhile (fun c => c.isAlphanum)
  let r := cs.dropWhile (fun c => c.isAlphanum)
  let t := String.mk s
  if t = "false" then (Token.tfalse, r)
  else if t = "true" then (Token.ttrue, r)
  else if t = "null" then (Token.tnull, r)
  else (Token.illegalIdent t, r)

/-- `Lex::next_token` on the remaining characters; `Eof` once exhausted. -/
def next_token : List Char → Token × List Char
  | [] => (Token.eof, [])
  | c :: cs =>
    if c = ' ' || c = '\n' || c = '\t' || c = '\r' then next_token cs
    else if c = '"' then str cs
    else if c = ':' then (Token.colon, cs)
    else if c = ',' then (Token.comma, cs)
    else if c = '[' then (Token.lbracket, cs)
    else if c = ']' then (Token.rbracket, cs)
    else if c = '{' then (Token.lbrace, cs)
    else if c = '}' then (Token.rbrace, cs)
    else if c.isDigit then num (c :: cs)
    else ident (c :: cs)

end Lex

/-- `struct Par`: current token, one-token lookahead, the lexer's remaining
characters, the arena, and the two scratch containers. -/
structure Par where
  cur : Token
  nxt : Token
  lex : List Char
  mem : Allocator JsonValue
  list : List Nat
  obj : List (String × Nat)
deriving DecidableEq, Repr

/-- `HashMap::insert`: overwrite an existing binding of the key, otherwise
append. -/
def insertKey (m : List (String × Nat)) (k : String) (v : Nat) : List (String × Nat) :=
  if m.any (fun p => p.1 = k) then m.map (fun p => if p.1 = k then (k, v) else p)
  else m ++ [(k, v)]

namespace Par

/-- `Par::advance`: pull one token; `cur ← nxt`, `nxt ←` the new token
(the returned old `cur` is discarded by every caller). -/
def advance (s : Par) : Par :=
  let (t, r) := Lex.next_token s.lex
  { s with cur := s.nxt, nxt := t, lex := r }

/-- `Par::expect_str`. -/
def expect_str (s : Par) : Except String (String × Par) :=
  match s.cur with
  | .str t => .ok (t, advance s)
  | _ => .error "Key is not a String"

/-- The error a failed `assert!` in `Allocator::alloc` is modelled as. -/
def allocPanic : String := "panic: capacity exceeded"

/-- One dispatch step of `Par::go_parse`, abstracted over the functions used
for the recursive occurrences (the two inner loops).  Each arm mirrors one
`match` arm of the source, including the trailing `self.advance()` executed
after the `match` on the `Ok` path. -/
def goStep (listL objL : Par → Except String Par) (s : Par) :
    Except String (JsonValue × Par) :=
  match s.cur with
    | .tfalse => .ok (.bool false, advance s)
    | .ttrue => .ok (.bool true, advance s)
    | .tnull => .ok (.null, advance s)
    | .str t => .ok (.string t, advance s)
    | .num n => .ok (.number n, advance s)
    | .lbracket =>
      match listL (advance { s with list := [] }) with
      | .error e => .error e
      | .ok s1 => .ok (.list s1.list, advance { s1 with list := [] })
    | .rbracket =>
      match (advance s).cur with
      | .eof | .rbracket | .rbrace | .comma | .colon | .lbrace =>
        .ok (.list (advance s).list, advance { advance s with list := [] })
      | _ => .error ("Unexpected " ++ sq ++ "]" ++ sq ++ ".")
    | .lbrace =>
      match objL (advance { s with obj := [] }) with
      | .error e => .error e
      | .ok s1 => .ok (.object s1.obj, advance { s1 with obj := [] })
    | .rbrace =>
      match (advance s).cur with
      | .eof | .comma | .rbracket | .rbrace =>
        .ok (.object (advance s).obj, advance { advance s with obj := [] })
      | _ => .error ("Unexpected " ++ sq ++ "\x7d\x7d" ++ sq ++ ".")
    | .comma =>
      match (advance s).cur with
      | .eof | .rbracket | .rbrace =>
        .error ("Unexpected end of input after " ++ sq ++ "," ++ sq ++ ".")
      | _ => .ok (.null, advance (advance s))
    | .colon =>
      match (advance s).cur with
      | .colon => .ok (.null, advance (advance (advance s)))
      | _ => .error ("Expected " ++ sq ++ ":" ++ sq ++ ".")
    | .eof => .error "Reached EOF."
    | .illegalIdent t =>
      match s.nxt with
      | .rbrace => .error ("Unexpected " ++ sq ++ t ++ sq ++ " after " ++ sq ++ "\x7d" ++ sq ++ ".")
      | _ => .error ("Unexpected " ++ sq ++ t ++ sq ++ ".")

/-- The body of one iteration of the `Token::LBracket` arm's `loop`, after
the optional comma skip: parse an element, store it, push the handle on the
shared scratch list. -/
def listBody (go : Par → Except String (JsonValue × Par))
    (listL : Par → Except String Par) (s1 : Par) : Except String Par :=
  match go s1 with
  | .error e => .error e
  | .ok (e, s2) =>
    match s2.mem.alloc e with
    | none => .error allocPanic
    | some (id, mem2) => listL { s2 with mem := mem2, list := s2.list ++ [id] }

/-- One iteration step of the `loop` of the `Token::LBracket` arm: stop on
`]`; skip one `,` (without re-checking for `]`, exactly as the source's two
leading `if`s do); then the iteration body. -/
def listStep (go : Par → Except String (JsonValue × Par))
    (listL : Par → Except String Par) (s : Par) : Except String Par :=
  match s.cur with
  | .rbracket => .ok s
  | .comma => listBody go listL (advance s)
  | _ => listBody go listL s

/-- The body of one iteration of the `Token::LBrace` arm's `loop`, after the
optional comma skip: a string key, a `:`, a value; store it, insert
`(key, handle)` in the shared scratch map. -/
def objBody (go : Par → Except String (JsonValue × Par))
    (objL : Par → Except String Par) (s1 : Par) : Except String Par :=
  match expect_str s1 with
  | .error e => .error e
  | .ok (key, s2) =>
    match s2.cur with
    | .colon =>
      match go (advance s2) with
      | .error e => .error e
      | .ok (v, s4) =>
        match s4.mem.alloc v with
        | none => .error allocPanic
        | some (id, mem2) =>
          objL { s4 with mem := mem2, obj := insertKey s4.obj key id }
    | _ => .error ("Expected " ++ sq ++ ":" ++ sq ++ ".")

/-- One iteration step of the `loop` of the `Token::LBrace` arm: stop on
`}`; skip one `,` (without re-checking for `}`, exactly as the source's two
leading `if`s do); then the iteration body. -/
def objStep (go : Par → Except String (JsonValue × Par))
    (objL : Par → Except String Par) (s : Par) : Except String Par :=
  match s.cur with
  | .rbrace => .ok s
  | .comma => objBody go objL (advance s)
  | _ => objBody go objL s

/-- The fuel-indexed tower of the three mutually recursive computations
(`go_parse` and its two inner loops), built by plain `Nat.rec` so that
concrete runs reduce linearly in the fuel. -/
def levels : Nat →
    (Par → Except String (JsonValue × Par)) ×
    (Par → Except String Par) × (Par → Except String Par) :=
  Nat.rec
    (fun _ => .error "out of fuel", fun _ => .error "out of fuel",
     fun _ => .error "out of fuel")
    (fun _ ih =>
      (goStep ih.2.1 ih.2.2, listStep ih.1 ih.2.1, objStep ih.1 ih.2.2))

/-- `Par::go_parse`, fuel-indexed. -/
def go_parse (fuel : Nat) (s : Par) : Except String (JsonValue × Par) :=
  (levels fuel).1 s

/-- The `Token::LBracket` arm's `loop`, fuel-indexed. -/
def listLoop (fuel : Nat) (s : Par) : Except String Par :=
  (levels fuel).2.1 s

/-- The `Token::LBrace` arm's `loop`, fuel-indexed. -/
def objLoop (fuel : Nat) (s : Par) : Except String Par :=
  (levels fuel).2.2 s

/-- Unfolding lemma: one fuel level of `go_parse`. -/
theorem go_parse_succ (fuel : Nat) (s : Par) :
    go_parse (fuel + 1) s = goStep (listLoop fuel) (objLoop fuel) s := rfl

/-- Unfolding lemma: one fuel level of `listLoop`. -/
theorem listLoop_succ (fuel : Nat) (s : Par) :
    listLoop (fuel + 1) s = listStep (go_parse fuel) (listLoop fuel) s := rfl

/-- Unfolding lemma: one fuel level of `objLoop`. -/
theorem objLoop_succ (fuel : Nat) (s : Par) :
    objLoop (fuel + 1) s = objStep (go_parse fuel) (objLoop fuel) s := rfl

/-- `Par::init`: two `next_token` pulls and `Allocator::make` (whose panic
on a zero capacity is modelled as `none`). -/
def init (code : List Char) (mem : Nat) : Option Par :=
  (Allocator.make mem).map fun a =>
    let (c1, r1) := Lex.next_token code
    let (c2, r2) := Lex.next_token r1
    ⟨c1, c2, r2, a, [], []⟩

/-- One iteration step of the driver `loop` of `Par::parse`: parse one
document, push the value paired with a clone of the (single, shared) arena;
stop at `Eof`; skip a top-level comma. -/
def parseStep (go : Par → Except String (JsonValue × Par))
    (rec : Par → List (JsonValue × Allocator JsonValue) →
      Except String (List (JsonValue × Allocator JsonValue)))
    (s : Par) (results : List (JsonValue × Allocator JsonValue)) :
    Except String (List (JsonValue × Allocator JsonValue)) :=
  match go s with
  | .error e => .error e
  | .ok (v, s1) =>
    match s1.cur with
    | .eof => .ok (results ++ [(v, s1.mem)])
    | .comma => rec (advance s1) (results ++ [(v, s1.mem)])
    | _ => rec s1 (results ++ [(v, s1.mem)])

/-- The driver `loop` of `Par::parse`, fuel-indexed. -/
def parseLoop : Nat → Par → List (JsonValue × Allocator JsonValue) →
    Except String (List (JsonValue × Allocator JsonValue)) :=
  Nat.rec (fun _ _ => .error "out of fuel")
    (fun fuel ih => parseStep (go_parse fuel) ih)

/-- Unfolding lemma: one fuel level of `parseLoop`. -/
theorem parseLoop_succ (fuel : Nat) (s : Par)
    (results : List (JsonValue × Allocator JsonValue)) :
    parseLoop (fuel + 1) s results = parseStep (go_parse fuel) (parseLoop fuel) s results := rfl

/-- `Par::parse`. -/
def parse (src : String) (mem : Nat) :
    Except String (List (JsonValue × Allocator JsonValue)) :=
  match init src.data mem with
  | none => .error "panic: assertion failed: size > 0"
  | some s => parseLoop (4 * src.length + 16) s []

end Par

/-! ## Helper lemmas -/

/-- `allocAll` on an arena whose `curr` equals its stored count mints the
consecutive handles `curr, curr+1, …` and appends the values in order. -/
theorem allocAll_consecutive {T : Type} (vals : List T) :
    ∀ (n size : Nat) (vec : List T), vec.length = n → n + vals.length ≤ size →
      Allocator.allocAll ⟨n, size, vec⟩ vals =
        some (List.range' n vals.length, ⟨n + vals.length, size, vec ++ vals⟩) := by
  induction vals with
  | nil =>
    intro n size vec h1 h2
    simp [Allocator.allocAll]
  | cons v vs ih =>
    intro n size vec h1 h2
    simp only [List.length_cons] at h2
    have hlt : n < size := by omega
    have step : Allocator.alloc ⟨n, size, vec⟩ v = some (n, ⟨n + 1, size, vec ++ [v]⟩) := by
      simp [Allocator.alloc, hlt]
    have tail := ih (n + 1) size (vec ++ [v]) (by simp [h1]) (by omega)
    simp only [Allocator.allocAll, step, tail]
    refine congrArg some (Prod.ext ?_ ?_)
    · show n :: List.range' (n + 1) vs.length = List.range' n (vs.length + 1)
      rfl
    · simp [Allocator.mk.injEq, List.append_assoc]
      omega

/-- Evaluation of `Par.parse` once the initial state is known. -/
theorem parse_eq_of_init {p : String} {m : Nat} {s : Par}
    (h : Par.init p.data m = some s) :
    Par.parse p m = Par.parseLoop (4 * p.length + 16) s [] := by
  unfold Par.parse
  rw [h]

/-- `b` is `a` with zero or more later allocations appended. -/
def arenaExtends (a b : Allocator JsonValue) : Prop := ∃ t, b.vec = a.vec ++ t

theorem arenaExtends_refl (a : Allocator JsonValue) : arenaExtends a a :=
  ⟨[], by simp⟩

theorem arenaExtends_trans {a b c : Allocator JsonValue}
    (h1 : arenaExtends a b) (h2 : arenaExtends b c) : arenaExtends a c := by
  obtain ⟨t1, e1⟩ := h1
  obtain ⟨t2, e2⟩ := h2
  exact ⟨t1 ++ t2, by simp [e2, e1]⟩

/-- `Par::advance` never touches the arena. -/
theorem advance_mem (s : Par) : (Par.advance s).mem = s.mem := rfl

/-- `Par::expect_str` never touches the arena. -/
theorem expect_str_mem {s : Par} {key : String} {s2 : Par}
    (h : Par.expect_str s = .ok (key, s2)) : s2.mem = s.mem := by
  unfold Par.expect_str at h
  split at h
  · cases h
    rfl
  · exact Except.noConfusion h

/-- A successful `Allocator::alloc` appends one element. -/
theorem alloc_extends {a : Allocator JsonValue} {v : JsonValue} {id : Nat}
    {a1 : Allocator JsonValue} (h : a.alloc v = some (id, a1)) :
    arenaExtends a a1 := by
  unfold Allocator.alloc at h
  split at h
  · cases h
    exact ⟨[v], rfl⟩
  · exact Option.noConfusion h

/-- Throughout `go_parse` and its two inner loops the single shared arena
only grows: the output arena extends the input arena. -/
theorem levels_arena_monotone : ∀ fuel : Nat,
    (∀ s r, Par.go_parse fuel s = .ok r → arenaExtends s.mem r.2.mem)
  ∧ (∀ s s1, Par.listLoop fuel s = .ok s1 → arenaExtends s.mem s1.mem)
  ∧ (∀ s s1, Par.objLoop fuel s = .ok s1 → arenaExtends s.mem s1.mem) := by
  intro fuel
  induction fuel with
  | zero =>
    exact ⟨fun s r h => Except.noConfusion h, fun s s1 h => Except.noConfusion h,
           fun s s1 h => Except.noConfusion h⟩
  | succ fuel ih =>
    obtain ⟨ihg, ihl, iho⟩ := ih
    have hlb : ∀ s0 s1, Par.listBody (Par.go_parse fuel) (Par.listLoop fuel) s0 = .ok s1 →
        arenaExtends s0.mem s1.mem := by
      intro s0 s1 h
      unfold Par.listBody at h
      split at h
      · exact Except.noConfusion h
      · rename_i e s2 heq
        split at h
        · exact Except.noConfusion h
        · rename_i id mem2 halloc
          exact arenaExtends_trans (ihg _ _ heq)
            (arenaExtends_trans (alloc_extends halloc) (ihl _ _ h))
    have hob : ∀ s0 s1, Par.objBody (Par.go_parse fuel) (Par.objLoop fuel) s0 = .ok s1 →
        arenaExtends s0.mem s1.mem := by
      intro s0 s1 h
      unfold Par.objBody at h
      split at h
      · exact Except.noConfusion h
      · rename_i key s2 heqk
        split at h
        · split at h
          · exact Except.noConfusion h
          · rename_i v s4 heq
            split at h
            · exact Except.noConfusion h
            · rename_i id mem2 halloc
              have h0 := ihg _ _ heq
              rw [advance_mem, expect_str_mem heqk] at h0
              exact arenaExtends_trans h0
                (arenaExtends_trans (alloc_extends halloc) (iho _ _ h))
        · exact Except.noConfusion h
    refine ⟨?_, ?_, ?_⟩
    · intro s r h
      rw [Par.go_parse_succ] at h
      cases hc : s.cur <;> simp only [Par.goStep, hc] at h
      case str => cases h; exact arenaExtends_refl _
      case num => cases h; exact arenaExtends_refl _
      case tfalse => cases h; exact arenaExtends_refl _
      case ttrue => cases h; exact arenaExtends_refl _
      case tnull => cases h; exact arenaExtends_refl _
      case lbracket =>
        split at h
        · exact Except.noConfusion h
        · cases h
          rename_i s1 heq
          have h2 := ihl _ _ heq
          exact h2
      case lbrace =>
        split at h
        · exact Except.noConfusion h
        · cases h
          rename_i s1 heq
          have h2 := iho _ _ heq
          exact h2
      case rbracket =>
        split at h <;>
          first
          | exact Except.noConfusion h
          | (cases h; exact arenaExtends_refl _)
      case rbrace =>
        split at h <;>
          first
          | exact Except.noConfusion h
          | (cases h; exact arenaExtends_refl _)
      case comma =>
        split at h <;>
          first
          | exact Except.noConfusion h
          | (cases h; exact arenaExtends_refl _)
      case colon =>
        split at h <;>
          first
          | exact Except.noConfusion h
          | (cases h; exact arenaExtends_refl _)
      case eof => exact Except.noConfusion h
      case illegalIdent => split at h <;> exact Except.noConfusion h
    · intro s s1 h
      rw [Par.listLoop_succ] at h
      unfold Par.listStep at h
      split at h
      · cases h
        exact arenaExtends_refl _
      · have h2 := hlb _ _ h
        rwa [advance_mem] at h2
      · exact hlb _ _ h
    · intro s s1 h
      rw [Par.objLoop_succ] at h
      unfold Par.objStep at h
      split at h
      · cases h
        exact arenaExtends_refl _
      · have h2 := hob _ _ h
        rwa [advance_mem] at h2
      · exact hob _ _ h

/-- The driver loop appends one `(value, arena clone)` pair per document,
each extending the arena of the state it started from, and consecutive
snapshots extending one another. -/
theorem parseLoop_chain : ∀ fuel : Nat, ∀ s results out,
    Par.parseLoop fuel s results = .ok out →
    ∃ tl, out = results ++ tl
      ∧ (∀ p ∈ tl, arenaExtends s.mem p.2)
      ∧ List.Chain' (fun p q => arenaExtends p.2 q.2) tl := by
  intro fuel
  induction fuel with
  | zero => exact fun s results out h => Except.noConfusion h
  | succ fuel ih =>
    intro s results out h
    rw [Par.parseLoop_succ] at h
    unfold Par.parseStep at h
    split at h
    · exact Except.noConfusion h
    · rename_i v s1 heq
      have hext : arenaExtends s.mem s1.mem := (levels_arena_monotone fuel).1 _ _ heq
      split at h
      · cases h
        refine ⟨[(v, s1.mem)], rfl, ?_, List.chain'_singleton _⟩
        intro p hp
        rw [List.mem_singleton] at hp
        subst hp
        exact hext
      · obtain ⟨tl2, rfl, hall, hch⟩ := ih _ _ _ h
        refine ⟨(v, s1.mem) :: tl2, by simp, ?_, ?_⟩
        · intro p hp
          rcases List.mem_cons.mp hp with h1 | h1
          · subst h1
            exact hext
          · have := hall p h1
            rw [advance_mem] at this
            exact arenaExtends_trans hext this
        · refine List.chain'_cons'.mpr ⟨?_, hch⟩
          intro q hq
          have := hall q (List.mem_of_mem_head? hq)
          rw [advance_mem] at this
          exact this
      · obtain ⟨tl2, rfl, hall, hch⟩ := ih _ _ _ h
        refine ⟨(v, s1.mem) :: tl2, by simp, ?_, ?_⟩
        · intro p hp
          rcases List.mem_cons.mp hp with h1 | h1
          · subst h1
            exact hext
          · exact arenaExtends_trans hext (hall p h1)
        · exact List.chain'_cons'.mpr ⟨fun q hq => hall q (List.mem_of_mem_head? hq), hch⟩

/-! ## Claims -/

/-- C1 (code bug, evaluation at the failing input): parsing `[1,2,[3]]`
(well-formed, depth 2 ≤ 5) does NOT reproduce the input's structure.
The nested `[3]` clears the shared scratch list, discarding the sibling
scalar handles 0 and 1, so the result is a one-element list whose only
element is the nested list — not the three-element list `1, 2, [3]`. -/
theorem c1_sibling_scalars_lost :
    Par.parse "[1,2,[3]]" 16 =
      .ok [(.list [3],
            ⟨4, 15, [.number ⟨1, 0⟩, .number ⟨2, 0⟩, .number ⟨3, 0⟩, .list [2]]⟩)] := by
  decide

/-- C2 (counterexample): on the two-document buffer `[1],[2]` the arena
snapshot paired with the second value contains the first document's child
`Number 1` at handle 0, and the second document's element handle is 1 —
a fresh per-document arena would mint handle 0 and contain only `Number 2`.
There is one shared arena, not a fresh one per document. -/
theorem c2_cex_shared_arena :
    Par.parse "[1],[2]" 16 =
      .ok [(.list [0], ⟨1, 15, [.number ⟨1, 0⟩]⟩),
           (.list [1], ⟨2, 15, [.number ⟨1, 0⟩, .number ⟨2, 0⟩]⟩)] := by
  decide

/-- C2 (amended): the driver constructs a single arena once (in `Par::init`,
with the requested capacity) and reuses it for every document in the buffer;
the snapshot paired with the n-th value is a clone of that shared arena, so
consecutive snapshots extend one another — the n-th snapshot contains the
composite children of all documents up to and including the n-th, not only
the n-th's. -/
theorem c2_amended_snapshots_accumulate (src : String) (mem : Nat)
    (out : List (JsonValue × Allocator JsonValue))
    (h : Par.parse src mem = .ok out) :
    List.Chain' (fun p q => arenaExtends p.2 q.2) out := by
  unfold Par.parse at h
  split at h
  · exact Except.noConfusion h
  · obtain ⟨tl, htl, -, hch⟩ := parseLoop_chain _ _ _ _ h
    simpa [htl] using hch

/-- Witness for C2 (amended) on the two-document buffer `[1],[2]`. -/
theorem c2_amended_snapshots_accumulate_witness :
    List.Chain' (fun p q => arenaExtends p.2 q.2)
      [(JsonValue.list [0], ⟨1, 15, [.number ⟨1, 0⟩]⟩),
       (JsonValue.list [1], ⟨2, 15, [.number ⟨1, 0⟩, .number ⟨2, 0⟩]⟩)] :=
  c2_amended_snapshots_accumulate "[1],[2]" 16 _ (by decide)

/-- The already-accumulated pairs of the driver loop only prefix a
successful result; on an error they are discarded entirely (the outcome is
the error of the remaining parse, independent of the accumulator). -/
theorem parseLoop_acc : ∀ fuel (s : Par) (acc : List (JsonValue × Allocator JsonValue)),
    Par.parseLoop fuel s acc =
      (Par.parseLoop fuel s []).map (fun tl => acc ++ tl) := by
  intro fuel
  induction fuel with
  | zero => intro s acc; rfl
  | succ fuel ih =>
    intro s acc
    rw [Par.parseLoop_succ, Par.parseLoop_succ]
    cases hgo : Par.go_parse fuel s with
    | error e => simp [Par.parseStep, hgo, Except.map]
    | ok r =>
      obtain ⟨v, s1⟩ := r
      cases hc : s1.cur <;> simp only [Par.parseStep, hgo, hc]
      case eof => simp [Except.map]
      case comma =>
        rw [List.nil_append, ih (Par.advance s1) (acc ++ [(v, s1.mem)]),
          ih (Par.advance s1) [(v, s1.mem)]]
        cases hres : Par.parseLoop fuel (Par.advance s1) [] <;>
          simp [Except.map, List.append_assoc]
      all_goals
        rw [List.nil_append, ih s1 (acc ++ [(v, s1.mem)]), ih s1 [(v, s1.mem)]]
        cases hres : Par.parseLoop fuel s1 [] <;>
          simp [Except.map, List.append_assoc]

/-- C3 (counterexample): in the buffer `1,-` the first document parses fine
on its own, but when the second document fails, `Par::parse` returns only
the error — the completed `(value, arena)` pair of document 1 is not in any
returned result sequence (the `Result` is `Err`, which carries none). -/
theorem c3_cex_prior_results_dropped :
    Par.parse "1,-" 16 = .error "Unexpected ''." := by
  decide

/-- C3 (amended): for every multi-document buffer where a later document
fails, `Par::parse` returns only the descriptive error of that first
failure and discards the already-completed pairs of the prior documents.
Generally: the driver loop treats its accumulated pairs as a pure prefix —
whenever the continuation from any state fails with error `e`, the loop
returns exactly `.error e` no matter which pairs `acc` were already
completed (first conjunct, universal over every buffer state), and an
error return of `Par::parse` carries no result sequence at all (second
conjunct). The instance `1,-` (document 1 completes, document 2 fails)
shows a completed pair being discarded. -/
theorem c3_amended_failure_discards_prior :
    (∀ fuel (s : Par) (acc : List (JsonValue × Allocator JsonValue)) (e : String),
      Par.parseLoop fuel s [] = .error e → Par.parseLoop fuel s acc = .error e)
  ∧ (∀ (src : String) (mem : Nat) (e : String),
      Par.parse src mem = .error e → ∀ out, Par.parse src mem ≠ .ok out)
  ∧ Par.parse "1" 16 = .ok [(.number ⟨1, 0⟩, ⟨0, 15, []⟩)]
  ∧ Par.parse "1,-" 16 = .error "Unexpected ''." := by
  refine ⟨fun fuel s acc e h => ?_, fun src mem e h out h2 => ?_, by decide, by decide⟩
  · rw [parseLoop_acc, h]
    rfl
  · rw [h] at h2
    exact Except.noConfusion h2

/-- Witness for C3 (amended) on the buffer `1,-`: after document 1
completes (the pair `(Number 1, arena)` is accumulated), the failing
continuation makes the loop return only the error, discarding that pair. -/
theorem c3_amended_failure_discards_prior_witness :
    Par.parseLoop 18 ⟨.illegalIdent "", .illegalIdent "", ['-'], ⟨0, 15, []⟩, [], []⟩
      [(.number ⟨1, 0⟩, ⟨0, 15, []⟩)] = .error "Unexpected ''." :=
  c3_amended_failure_discards_prior.1 18
    ⟨.illegalIdent "", .illegalIdent "", ['-'], ⟨0, 15, []⟩, [], []⟩
    [(.number ⟨1, 0⟩, ⟨0, 15, []⟩)] "Unexpected ''." (by decide)

/-- C4 (counterexample): the comma leniency is the reverse of the claim.
A stray `,` followed by the closing context end-of-input is an error, while
a stray `,` followed by a non-closing token (the number `1`) is tolerated
and resolves to `Null` (consuming the following token). -/
theorem c4_cex_comma_direction_reversed :
    Par.parse "," 16 = .error "Unexpected end of input after ','."
  ∧ Par.parse ",1" 16 = .ok [(.null, ⟨0, 15, []⟩)] :=
  ⟨by decide, by decide⟩

/-- C4 (amended): the actual tolerance of a stray structural token in value
position, for every parser state and sufficient fuel. A stray `]` is
tolerated iff the next token is end-of-input, `]`, `}`, `,`, `:` or `{`,
resolving to a `List` of the current scratch handles; a stray `}` is
tolerated iff the next token is end-of-input, `,`, `]` or `}`, resolving to
an `Object` of the current scratch entries; a stray `,` is an error iff the
next token is end-of-input, `]` or `}` and otherwise resolves to `Null`
(consuming the following token); a stray `:` is tolerated iff the next
token is another `:`, resolving to `Null` and consuming the token after the
second colon (the source performs three advances on this path: the in-arm
one, the second-colon one, and the trailing post-`match` one). -/
theorem c4_amended_stray_token_tolerance (fuel : Nat) (s : Par) :
    (s.cur = .rbracket →
      ((((Par.advance s).cur = .eof ∨ (Par.advance s).cur = .rbracket ∨
          (Par.advance s).cur = .rbrace ∨ (Par.advance s).cur = .comma ∨
          (Par.advance s).cur = .colon ∨ (Par.advance s).cur = .lbrace) →
        Par.go_parse (fuel + 1) s =
          .ok (.list (Par.advance s).list, Par.advance { Par.advance s with list := [] }))
      ∧ (¬((Par.advance s).cur = .eof ∨ (Par.advance s).cur = .rbracket ∨
            (Par.advance s).cur = .rbrace ∨ (Par.advance s).cur = .comma ∨
            (Par.advance s).cur = .colon ∨ (Par.advance s).cur = .lbrace) →
        Par.go_parse (fuel + 1) s = .error ("Unexpected " ++ sq ++ "]" ++ sq ++ "."))))
  ∧ (s.cur = .rbrace →
      ((((Par.advance s).cur = .eof ∨ (Par.advance s).cur = .comma ∨
          (Par.advance s).cur = .rbracket ∨ (Par.advance s).cur = .rbrace) →
        Par.go_parse (fuel + 1) s =
          .ok (.object (Par.advance s).obj, Par.advance { Par.advance s with obj := [] }))
      ∧ (¬((Par.advance s).cur = .eof ∨ (Par.advance s).cur = .comma ∨
            (Par.advance s).cur = .rbracket ∨ (Par.advance s).cur = .rbrace) →
        Par.go_parse (fuel + 1) s =
          .error ("Unexpected " ++ sq ++ "\x7d\x7d" ++ sq ++ "."))))
  ∧ (s.cur = .comma →
      ((((Par.advance s).cur = .eof ∨ (Par.advance s).cur = .rbracket ∨
          (Par.advance s).cur = .rbrace) →
        Par.go_parse (fuel + 1) s =
          .error ("Unexpected end of input after " ++ sq ++ "," ++ sq ++ "."))
      ∧ (¬((Par.advance s).cur = .eof ∨ (Par.advance s).cur = .rbracket ∨
            (Par.advance s).cur = .rbrace) →
        Par.go_parse (fuel + 1) s = .ok (.null, Par.advance (Par.advance s)))))
  ∧ (s.cur = .colon →
      (((Par.advance s).cur = .colon →
        Par.go_parse (fuel + 1) s =
          .ok (.null, Par.advance (Par.advance (Par.advance s))))
      ∧ ((Par.advance s).cur ≠ .colon →
        Par.go_parse (fuel + 1) s = .error ("Expected " ++ sq ++ ":" ++ sq ++ ".")))) := by
  refine ⟨fun hcur => ⟨fun hnxt => ?_, fun hnxt => ?_⟩,
          fun hcur => ⟨fun hnxt => ?_, fun hnxt => ?_⟩,
          fun hcur => ⟨fun hnxt => ?_, fun hnxt => ?_⟩,
          fun hcur => ⟨fun hnxt => ?_, fun hnxt => ?_⟩⟩ <;>
    rw [Par.go_parse_succ]
  · rcases hnxt with h | h | h | h | h | h <;> simp [Par.goStep, hcur, h]
  · cases h : (Par.advance s).cur <;> simp_all [Par.goStep]
  · rcases hnxt with h | h | h | h <;> simp [Par.goStep, hcur, h]
  · cases h : (Par.advance s).cur <;> simp_all [Par.goStep]
  · rcases hnxt with h | h | h <;> simp [Par.goStep, hcur, h]
  · cases h : (Par.advance s).cur <;> simp_all [Par.goStep]
  · simp [Par.goStep, hcur, hnxt]
  · cases h : (Par.advance s).cur <;> simp_all [Par.goStep]

/-- Witness for C4 (amended): on the state reached after lexing `,1` the
stray comma is followed by a number (a non-closing context), and the parse
step succeeds with `Null`, consuming the number. -/
theorem c4_amended_stray_token_tolerance_witness :
    Par.go_parse 1 ⟨.comma, .num ⟨1, 0⟩, [], ⟨0, 15, []⟩, [], []⟩ =
      .ok (.null, ⟨.eof, .eof, [], ⟨0, 15, []⟩, [], []⟩) :=
  ((c4_amended_stray_token_tolerance 0
      ⟨.comma, .num ⟨1, 0⟩, [], ⟨0, 15, []⟩, [], []⟩).2.2.1 rfl).2 (by decide)

/-- C5: `Allocator::make` fails exactly on capacity 0, otherwise mints
capacity `cap - 1`; `alloc` fails (capacity check) exactly when the stored
count has reached the minted capacity, and a successful `alloc` appends the
element while keeping the stored count within the minted capacity. -/
theorem c5_make_mints_capacity_minus_one (T : Type) (v : T) (cap : Nat)
    (hcap : 0 < cap) (a : Allocator T) (hinv : a.curr = a.vec.length) :
    Allocator.make (T := T) 0 = none
  ∧ Allocator.make (T := T) cap = some ⟨0, cap - 1, []⟩
  ∧ (a.alloc v = none ↔ a.size ≤ a.vec.length)
  ∧ ∀ id a1, a.alloc v = some (id, a1) →
      a1.vec = a.vec ++ [v] ∧ a1.vec.length ≤ a.size := by
  refine ⟨rfl, by simp [Allocator.make, hcap], ?_, ?_⟩
  · constructor
    · intro h
      by_contra hlt
      simp [Allocator.alloc, hinv] at h
      omega
    · intro h
      simp [Allocator.alloc, hinv]
      omega
  · intro id a1 h
    have hlt : a.curr < a.size := by
      by_contra hge
      simp [Allocator.alloc, hge] at h
    simp [Allocator.alloc, hlt] at h
    obtain ⟨-, h2⟩ := h
    rw [← h2]
    simp
    omega

/-- Witness for C5 at `T = Nat`, `v = 7`, `cap = 3`, arena `⟨1, 2, [5]⟩`. -/
theorem c5_make_mints_capacity_minus_one_witness :
    Allocator.make (T := Nat) 0 = none
  ∧ Allocator.make (T := Nat) 3 = some ⟨0, 2, []⟩
  ∧ ((⟨1, 2, [5]⟩ : Allocator Nat).alloc 7 = none ↔
      (⟨1, 2, [5]⟩ : Allocator Nat).size ≤ [5].length)
  ∧ ∀ id a1, (⟨1, 2, [5]⟩ : Allocator Nat).alloc 7 = some (id, a1) →
      a1.vec = [5] ++ [7] ∧ a1.vec.length ≤ (⟨1, 2, [5]⟩ : Allocator Nat).size :=
  c5_make_mints_capacity_minus_one Nat 7 3 (by decide) ⟨1, 2, [5]⟩ (by decide)

/-- C6 (counterexample): `parse("{\"a\":}")` does fail, but with the
key-type error `Key is not a String` (the stray `}` in value position is
tolerated and consumed as an empty-`Object` placeholder value for the key
`a`, after which the loop expects another key and finds end-of-input) —
not with a syntax (`Expected ':'.`) or unexpected-token (`Unexpected '…'`)
style failure. -/
theorem c6_cex_keytype_error_not_syntax :
    Par.parse "\x7b\"a\":\x7d" 16 = .error "Key is not a String"
  ∧ "Key is not a String" ≠ "Expected " ++ sq ++ ":" ++ sq ++ "."
  ∧ ∀ t : String, "Key is not a String" ≠ "Unexpected " ++ t := by
  refine ⟨by decide, by decide, fun t h => ?_⟩
  cases t with
  | mk l =>
    have h2 := congrArg String.data h
    have h3 := congrArg List.head? h2
    exact absurd (Option.some.inj h3) (by decide)

/-- C6 (amended): parsing `{"a":}` always returns an error — the key-type
failure `Key is not a String` — and never succeeds; no `Ok` result (with or
without a placeholder value) is produced. -/
theorem c6_amended_always_fails :
    Par.parse "\x7b\"a\":\x7d" 16 = .error "Key is not a String"
  ∧ ∀ out, Par.parse "\x7b\"a\":\x7d" 16 ≠ .ok out := by
  refine ⟨by decide, fun out h => ?_⟩
  rw [(by decide : Par.parse "\x7b\"a\":\x7d" 16 = .error "Key is not a String")] at h
  exact Except.noConfusion h

/-- C7: each single-scalar document parses to the corresponding scalar:
`true`, `false`, `null`, `42`, `3.14` (modelled numeric value `314/10²`,
which is the rational `3.14`), and the quoted string `"hi"`. -/
theorem c7_scalar_documents :
    Par.parse "true" 16 = .ok [(.bool true, ⟨0, 15, []⟩)]
  ∧ Par.parse "false" 16 = .ok [(.bool false, ⟨0, 15, []⟩)]
  ∧ Par.parse "null" 16 = .ok [(.null, ⟨0, 15, []⟩)]
  ∧ Par.parse "42" 16 = .ok [(.number ⟨42, 0⟩, ⟨0, 15, []⟩)]
  ∧ Par.parse "3.14" 16 = .ok [(.number ⟨314, 2⟩, ⟨0, 15, []⟩)]
  ∧ Par.parse "\"hi\"" 16 = .ok [(.string "hi", ⟨0, 15, []⟩)]
  ∧ Num64.toRat ⟨42, 0⟩ = 42 ∧ Num64.toRat ⟨314, 2⟩ = 3.14 := by
  refine ⟨by decide, by decide, by decide, by decide, by decide, by decide, ?_, ?_⟩
  · rw [Num64.toRat, Rat.mkRat_eq_div]
    norm_num
  · rw [Num64.toRat, Rat.mkRat_eq_div]
    norm_num

/-- C8: starting from any freshly made arena, a sequence of `alloc` calls
mints the handles `0, 1, 2, …` in order (strictly increasing, never
reused), and `fetch` on each handle returns exactly the value stored by the
`alloc` that minted it, unmodified by the later allocations. -/
theorem c8_handles_increase_and_fetch_roundtrips (T : Type) (cap : Nat)
    (vals : List T) (a0 : Allocator T) (hmk : Allocator.make cap = some a0)
    (hlen : vals.length ≤ cap - 1) :
    ∃ afin, a0.allocAll vals = some (List.range vals.length, afin)
      ∧ afin.vec = vals
      ∧ ∀ i, afin.fetch i = vals[i]? := by
  have hcap : 0 < cap := by
    by_contra hc
    simp [Allocator.make, hc] at hmk
  have ha0 : a0 = ⟨0, cap - 1, []⟩ := by
    simp [Allocator.make, hcap] at hmk
    exact hmk.symm
  subst ha0
  refine ⟨⟨vals.length, cap - 1, vals⟩, ?_, rfl, fun i => rfl⟩
  have h := allocAll_consecutive vals 0 (cap - 1) [] rfl (by omega)
  simpa [List.range_eq_range'] using h

/-- C9: a string literal opened with a double-quote but never closed still
lexes as a `String` token containing all remaining characters verbatim
(backslashes included, no escape processing), and such a document parses
successfully to that `String` value rather than reporting an
unterminated-string error. -/
theorem c9_unterminated_string_parses (s : String) (mem : Nat) (hmem : 0 < mem)
    (hq : ∀ c ∈ s.data, c ≠ '"') :
    Lex.next_token ('"' :: s.data) = (Token.str s, [])
  ∧ Par.parse ("\"" ++ s) mem = .ok [(JsonValue.string s, ⟨0, mem - 1, []⟩)] := by
  obtain ⟨l⟩ := s
  have htk : List.takeWhile (fun c => decide (c ≠ '"')) l = l :=
    List.takeWhile_eq_self_iff.mpr (by intro x hx; simpa using hq x hx)
  have hdw : List.dropWhile (fun c => decide (c ≠ '"')) l = [] :=
    List.dropWhile_eq_nil_iff.mpr (by intro x hx; simpa using hq x hx)
  have hlex : Lex.next_token ('"' :: l) = (Token.str ⟨l⟩, []) := by
    have h0 : Lex.next_token ('"' :: l) = Lex.str l := rfl
    rw [h0]
    unfold Lex.str
    rw [htk, hdw]
    rfl
  refine ⟨hlex, ?_⟩
  have hinit : Par.init ("\"" ++ (⟨l⟩ : String)).data mem =
      some ⟨Token.str ⟨l⟩, Token.eof, [], ⟨0, mem - 1, []⟩, [], []⟩ := by
    unfold Par.init
    rw [show (Allocator.make mem : Option (Allocator JsonValue)) = some ⟨0, mem - 1, []⟩ from by
      simp [Allocator.make, hmem]]
    rw [show ("\"" ++ (⟨l⟩ : String)).data = '"' :: l from rfl]
    simp only [Option.map_some', hlex]
    rfl
  rw [parse_eq_of_init hinit]
  obtain ⟨k, hk⟩ : ∃ k, 4 * ("\"" ++ (⟨l⟩ : String)).length + 16 = k + 1 + 1 :=
    ⟨4 * ("\"" ++ (⟨l⟩ : String)).length + 14, by omega⟩
  rw [hk, Par.parseLoop_succ]
  have hgo : Par.go_parse (k + 1)
      ⟨Token.str ⟨l⟩, Token.eof, [], ⟨0, mem - 1, []⟩, [], []⟩ =
      .ok (JsonValue.string ⟨l⟩, ⟨Token.eof, Token.eof, [], ⟨0, mem - 1, []⟩, [], []⟩) := by
    rw [Par.go_parse_succ]
    rfl
  unfold Par.parseStep
  rw [hgo]
  rfl

/-- Witness for C9 with the backslash-carrying content `a\b` and
capacity 16. -/
theorem c9_unterminated_string_parses_witness :
    Lex.next_token ('"' :: ("a\\b" : String).data) = (Token.str "a\\b", [])
  ∧ Par.parse ("\"" ++ "a\\b") 16 = .ok [(JsonValue.string "a\\b", ⟨0, 15, []⟩)] :=
  c9_unterminated_string_parses "a\\b" 16 (by decide) (by decide)

/-- C10: for every input whose first non-whitespace character is `-`, the
lexer emits an illegal-identifier token with an empty lexeme without
consuming the `-`, and `Par::parse` fails with the unexpected-token error —
so no input beginning with `-` ever parses as a `Number`. -/
theorem c10_leading_minus_rejected (pre rest : List Char) (mem : Nat)
    (hmem : 0 < mem)
    (hws : ∀ c ∈ pre, c = ' ' ∨ c = '\n' ∨ c = '\t' ∨ c = '\r') :
    Lex.next_token (pre ++ '-' :: rest) = (Token.illegalIdent "", '-' :: rest)
  ∧ Par.parse (String.mk (pre ++ '-' :: rest)) mem = .error "Unexpected ''." := by
  have hbase : Lex.next_token ('-' :: rest) = (Token.illegalIdent "", '-' :: rest) := rfl
  have hlex : ∀ pre2 : List Char,
      (∀ c ∈ pre2, c = ' ' ∨ c = '\n' ∨ c = '\t' ∨ c = '\r') →
      Lex.next_token (pre2 ++ '-' :: rest) = (Token.illegalIdent "", '-' :: rest) := by
    intro pre2
    induction pre2 with
    | nil => intro h2; exact hbase
    | cons c cs ih =>
      intro h2
      have htail := ih fun x hx => h2 x (List.mem_cons_of_mem c hx)
      rcases h2 c (by simp) with h | h | h | h <;> subst h <;> exact htail
  refine ⟨hlex pre hws, ?_⟩
  have hinit : Par.init (String.mk (pre ++ '-' :: rest)).data mem =
      some ⟨Token.illegalIdent "", Token.illegalIdent "", '-' :: rest,
            ⟨0, mem - 1, []⟩, [], []⟩ := by
    unfold Par.init
    rw [show (Allocator.make mem : Option (Allocator JsonValue)) = some ⟨0, mem - 1, []⟩ from by
      simp [Allocator.make, hmem]]
    rw [show (String.mk (pre ++ '-' :: rest)).data = pre ++ '-' :: rest from rfl]
    simp only [Option.map_some', hlex pre hws, hbase]
  rw [parse_eq_of_init hinit]
  obtain ⟨k, hk⟩ : ∃ k, 4 * (String.mk (pre ++ '-' :: rest)).length + 16 = k + 1 + 1 :=
    ⟨4 * (String.mk (pre ++ '-' :: rest)).length + 14, by omega⟩
  rw [hk, Par.parseLoop_succ]
  have hgo : Par.go_parse (k + 1)
      ⟨Token.illegalIdent "", Token.illegalIdent "", '-' :: rest,
       ⟨0, mem - 1, []⟩, [], []⟩ = .error "Unexpected ''." := by
    rw [Par.go_parse_succ]
    rfl
  unfold Par.parseStep
  rw [hgo]

/-- Witness for C10 on the input `-1` with capacity 16. -/
theorem c10_leading_minus_rejected_witness :
    Lex.next_token ([] ++ '-' :: ['1']) = (Token.illegalIdent "", '-' :: ['1'])
  ∧ Par.parse (String.mk ([] ++ '-' :: ['1'])) 16 = .error "Unexpected ''." :=
  c10_leading_minus_rejected [] ['1'] 16 (by decide) (by simp)

/-- Witness for C8 at `T = Nat`, `cap = 4`, values `[10, 20, 30]`. -/
theorem c8_handles_increase_and_fetch_roundtrips_witness :
    ∃ afin, ((⟨0, 3, []⟩ : Allocator Nat).allocAll [10, 20, 30] =
        some (List.range 3, afin))
      ∧ afin.vec = [10, 20, 30]
      ∧ ∀ i, afin.fetch i = [10, 20, 30][i]? :=
  c8_handles_increase_and_fetch_roundtrips Nat 4 [10, 20, 30] ⟨0, 3, []⟩
    (by decide) (by decide)

end JP
